import Mathlib

/-!
Shallow embedding of the `graphql-field-timer` repository (Rust sources
`src/parser.rs`, `src/timer.rs`, `src/main.rs`) for checking its
natural-language specification.

The execution engine (`src/timer.rs`) is embedded first: response
classification, result recording, and result ranking.  The query
flattener (`src/parser.rs`) follows.  Machine integers that matter
(durations) are modelled as `Nat` (no arithmetic overflows in the
source paths under study); fallible code returns `Option` or an
explicit error component.
-/

namespace GFT

/-- `Status` from `src/timer.rs` (lines 205-209): `Success | Failure`. -/
inductive Status where
  | success
  | failure
deriving DecidableEq, Repr

/-- A JSON value, modelling `serde_json::Value` as used by `src/timer.rs`.
Numbers are modelled as `Int` (their exact value is irrelevant to every
property under study). -/
inductive JVal where
  | null
  | bool (b : Bool)
  | num (n : Int)
  | str (s : String)
  | arr (elems : List JVal)
  | obj (fields : List (String × JVal))

/-- Whether a JSON value is an object that contains the given key. -/
def JVal.hasKey (v : JVal) (k : String) : Bool :=
  match v with
  | .obj fields => fields.any (fun p => p.1 == k)
  | _ => false

/-- `GraphQLResponse` from `src/timer.rs` (lines 226-230):
`data: Option<Value>, errors: Option<Value>`. -/
structure GraphQLResponse where
  data : Option JVal
  errors : Option JVal

/-- serde's deserialization of an `Option<Value>` struct field from the
JSON value found at the key: an absent key gives `None`, and an explicit
JSON `null` also gives `None` (serde maps JSON null to `Option::None`). -/
def jsonOptField : Option JVal → Option JVal
  | none => none
  | some JVal.null => none
  | some v => some v

/-- serde_json's deserialization of `GraphQLResponse` from a decoded JSON
value: only objects deserialize; each field is read with the
`Option<Value>` semantics of `jsonOptField`.  (Duplicate keys do not occur
in any input considered here; the first occurrence is used.) -/
def GraphQLResponse.deserialize : JVal → Option GraphQLResponse
  | .obj fields =>
      some { data := jsonOptField (fields.lookup "data"),
             errors := jsonOptField (fields.lookup "errors") }
  | _ => none

/-- The status classification in `Timer::send_query` (`src/timer.rs`
lines 94-100): `Success` if `response.data.is_some()`, else `Failure` if
`response.errors.is_some()`, else the fatal `bail!("unknown response…")`
(modelled as `none`). -/
def classifyStatus (r : GraphQLResponse) : Option Status :=
  if r.data.isSome then some Status.success
  else if r.errors.isSome then some Status.failure
  else none

/-- `Result` from `src/timer.rs` (lines 191-197).  The duration is in
abstract clock ticks (`Nat`). -/
structure Result where
  duration : Nat
  query : String
  response : GraphQLResponse
  status : Status

/-- The outcome of the single network exchange performed by one call to
`Timer::send_query`, at the interface boundary of the transport:
either the transport/body-read fails (`transportError`, the `?` on
`send_request` / `body::to_bytes`), or a response arrives after the
measured `duration` carrying a body that either is not JSON at all
(`body = none`, `serde_json::from_slice` fails) or decodes to the JSON
value `v` (`body = some v`). -/
inductive Exchange where
  | transportError
  | response (duration : Nat) (body : Option JVal)

/-- `Timer::send_query` (`src/timer.rs` lines 75-110), as a function of
the accumulated results, the query string and the exchange outcome.
Returns the new results list and `true` for `Ok(())`, `false` for any
`bail!`/`?` error path.  The source pushes exactly one `Result` at line
102, after every fallible step. -/
def Timer.send_query (results : List Result) (query : String) (ex : Exchange) :
    List Result × Bool :=
  match ex with
  | .transportError => (results, false)
  | .response duration body =>
    match body with
    | none => (results, false)
    | some v =>
      match GraphQLResponse.deserialize v with
      | none => (results, false)
      | some resp =>
        match classifyStatus resp with
        | none => (results, false)
        | some status =>
            (results ++ [{ duration := duration, query := query,
                           response := resp, status := status }], true)

/-- The comparator closure passed to `sort_by` in `Timer::results`
(`src/timer.rs` lines 62-70): equal statuses compare by duration;
otherwise a `Failure` on the left is `Greater`, else `Less`. -/
def resultCmp (a b : Result) : Ordering :=
  if a.status = b.status then compare a.duration b.duration
  else if a.status = Status.failure then Ordering.gt
  else Ordering.lt

/-- The `≤` relation induced by `resultCmp`: Rust's stable `sort_by`
places `a` no later than `b` exactly when the comparator does not return
`Greater`. -/
def resultLe (a b : Result) : Bool :=
  decide (resultCmp a b ≠ Ordering.gt)

/-- `Timer::results` (`src/timer.rs` lines 61-73): a stable sort of the
accumulated results by `resultCmp`, modelled by the stable `mergeSort`. -/
def Timer.results (results : List Result) : List Result :=
  results.mergeSort resultLe

/-- Characterization of `resultLe`. -/
theorem resultLe_iff (a b : Result) :
    resultLe a b = true ↔
      (a.status = b.status ∧ a.duration ≤ b.duration) ∨
      (a.status ≠ b.status ∧ a.status = Status.success) := by
  unfold resultLe resultCmp
  cases ha : a.status <;> cases hb : b.status <;>
    simp [ha, hb, decide_eq_true_eq, Nat.compare_eq_gt, Nat.not_lt]

/-- `resultLe` is total. -/
theorem resultLe_total (a b : Result) : (resultLe a b || resultLe b a) = true := by
  unfold resultLe resultCmp
  cases ha : a.status <;> cases hb : b.status <;>
    simp [ha, hb, decide_eq_true_eq, Nat.compare_eq_gt, Nat.not_lt] <;> omega

/-- `resultLe` is transitive. -/
theorem resultLe_trans (a b c : Result) (hab : resultLe a b = true)
    (hbc : resultLe b c = true) : resultLe a c = true := by
  rw [resultLe_iff] at hab hbc ⊢
  rcases hab with ⟨h1, h2⟩ | ⟨h1, h2⟩ <;> rcases hbc with ⟨h3, h4⟩ | ⟨h3, h4⟩
  · exact Or.inl ⟨h1.trans h3, le_trans h2 h4⟩
  · exact Or.inr ⟨by rw [h1]; exact h3, by rw [h1]; exact h4⟩
  · exact Or.inr ⟨by rw [← h3]; exact h1, h2⟩
  · exact absurd (h2.trans h4.symm) h1

/-- Example result (Success, 2s) from the spec's ranking scenario. -/
def exS2 : Result := ⟨2, "q1", ⟨some (JVal.obj []), none⟩, Status.success⟩

/-- Example result (Failure, 1s) from the spec's ranking scenario. -/
def exF1 : Result := ⟨1, "q2", ⟨none, some (JVal.arr [])⟩, Status.failure⟩

/-- Example result (Success, 1s) from the spec's ranking scenario. -/
def exS1 : Result := ⟨1, "q3", ⟨some (JVal.obj []), none⟩, Status.success⟩

/-- C3: the ranked output of `Timer::results` is a permutation of the
accumulated results in which every Success precedes every Failure,
results of equal status appear in ascending order of duration, results
with equal status and equal duration keep their relative execution order
(stable tie-break), and the spec's example
`[(Success, 2s), (Failure, 1s), (Success, 1s)]` ranks as
`[(Success, 1s), (Success, 2s), (Failure, 1s)]`. -/
theorem ranking_spec :
    ∀ rs : List Result,
      (Timer.results rs).Perm rs ∧
      List.Pairwise
        (fun a b => ¬(a.status = Status.failure ∧ b.status = Status.success))
        (Timer.results rs) ∧
      List.Pairwise
        (fun a b => a.status = b.status → a.duration ≤ b.duration)
        (Timer.results rs) ∧
      (∀ a b : Result, a.status = b.status → a.duration = b.duration →
        [a, b].Sublist rs → [a, b].Sublist (Timer.results rs)) ∧
      Timer.results [exS2, exF1, exS1] = [exS1, exS2, exF1] := by
  intro rs
  have htrans : ∀ a b c : Result,
      resultLe a b = true → resultLe b c = true → resultLe a c = true :=
    resultLe_trans
  have htotal := resultLe_total
  refine ⟨List.mergeSort_perm rs resultLe, ?_, ?_, ?_, ?_⟩
  · refine (List.sorted_mergeSort htrans htotal rs).imp (fun hle => ?_)
    rw [resultLe_iff] at hle
    rintro ⟨hfa, hsb⟩
    rcases hle with ⟨h1, -⟩ | ⟨-, h2⟩
    · rw [hfa, hsb] at h1; exact Status.noConfusion h1
    · rw [hfa] at h2; exact Status.noConfusion h2
  · refine (List.sorted_mergeSort htrans htotal rs).imp (fun hle heq => ?_)
    rw [resultLe_iff] at hle
    rcases hle with ⟨-, h⟩ | ⟨hne, -⟩
    · exact h
    · exact absurd heq hne
  · intro a b hs hd hsub
    refine List.pair_sublist_mergeSort htrans htotal ?_ hsub
    rw [resultLe_iff]
    exact Or.inl ⟨hs, le_of_eq hd⟩
  · simp [Timer.results, List.mergeSort, List.merge, exS2, exF1, exS1,
      resultLe, resultCmp,
      show compare 2 1 = Ordering.gt from rfl,
      show compare 1 2 = Ordering.lt from rfl,
      show compare 1 1 = Ordering.eq from rfl]

/-- Witness for C3: the stability conjunct applied at a concrete input
with its hypotheses discharged. -/
theorem ranking_spec_witness :
    exS1.status = exS1.status ∧ exS1.duration = exS1.duration ∧
    [exS1, exS1].Sublist [exS1, exS1] ∧
    [exS1, exS1].Sublist (Timer.results [exS1, exS1]) :=
  ⟨rfl, rfl, List.Sublist.refl _,
    (ranking_spec [exS1, exS1]).2.2.2.1 exS1 exS1 rfl rfl (List.Sublist.refl _)⟩

/-- C9: every call to `send_query` appends exactly one `Result` when it
returns `Ok`, and leaves the accumulated results completely unchanged on
every error path. -/
theorem send_query_append_or_unchanged :
    ∀ (results : List Result) (query : String) (ex : Exchange),
      ((Timer.send_query results query ex).2 = true →
        ∃ r : Result, (Timer.send_query results query ex).1 = results ++ [r]) ∧
      ((Timer.send_query results query ex).2 = false →
        (Timer.send_query results query ex).1 = results) := by
  intro results query ex
  unfold Timer.send_query
  cases ex with
  | transportError => simp
  | response d body =>
    cases body with
    | none => simp
    | some v =>
      cases hdes : GraphQLResponse.deserialize v with
      | none => simp [hdes]
      | some resp =>
        cases hcl : classifyStatus resp with
        | none => simp [hdes, hcl]
        | some st =>
          constructor
          · intro _
            exact ⟨⟨d, query, resp, st⟩, by simp [hdes, hcl]⟩
          · intro h
            simp [hdes, hcl] at h

/-- Witness for C9 at a concrete successful exchange. -/
theorem send_query_append_or_unchanged_witness :
    (Timer.send_query [] "q"
      (Exchange.response 1 (some (JVal.obj [("data", JVal.num 1)])))).2 = true ∧
    ∃ r : Result, (Timer.send_query [] "q"
      (Exchange.response 1 (some (JVal.obj [("data", JVal.num 1)])))).1 = [] ++ [r] :=
  ⟨rfl, (send_query_append_or_unchanged [] "q"
    (Exchange.response 1 (some (JVal.obj [("data", JVal.num 1)])))).1 rfl⟩

/-- C2, counterexample: the body `{"data": null, "errors": []}` contains
the key `data`, yet `send_query` records `Failure`, not `Success` —
serde maps an explicit JSON `null` to `None`, so classification is by
non-null presence, not by key presence. -/
theorem classify_by_key_counterexample :
    (JVal.obj [("data", JVal.null), ("errors", JVal.arr [])]).hasKey "data" = true ∧
    Timer.send_query [] "q"
        (Exchange.response 1
          (some (JVal.obj [("data", JVal.null), ("errors", JVal.arr [])]))) =
      ([{ duration := 1, query := "q",
          response := { data := none, errors := some (JVal.arr []) },
          status := Status.failure }], true) ∧
    Status.failure ≠ Status.success :=
  ⟨rfl, rfl, fun h => Status.noConfusion h⟩

/-- An optional JSON field that is either absent or an explicit `null` —
the two cases serde's `Option<Value>` collapses to `None`. -/
def nullOrAbsent (o : Option JVal) : Prop := o = none ∨ o = some JVal.null

theorem jsonOptField_some_of_ne_null (v : JVal) (h : v ≠ JVal.null) :
    jsonOptField (some v) = some v := by
  cases v <;> first | exact absurd rfl h | rfl

theorem jsonOptField_of_nullOrAbsent (o : Option JVal) (h : nullOrAbsent o) :
    jsonOptField o = none := by
  rcases h with h | h <;> rw [h] <;> rfl

/-- C2, amended: for a response whose body decodes to a JSON object, the
recorded Status is Success exactly when the key `data` is present with a
non-null value; otherwise it is Failure exactly when the key `errors` is
present with a non-null value; when both keys are absent or null, and
when the body is not a JSON object or not JSON at all, `send_query`
fails fatally (the raw body is carried in the error message in the
source); the two spec examples classify as stated. -/
theorem send_query_classification :
    ∀ (results : List Result) (q : String) (d : Nat)
      (fields : List (String × JVal)),
      (∀ v, fields.lookup "data" = some v → v ≠ JVal.null →
        Timer.send_query results q (.response d (some (.obj fields))) =
          (results ++ [⟨d, q, ⟨some v, jsonOptField (fields.lookup "errors")⟩,
            Status.success⟩], true)) ∧
      (nullOrAbsent (fields.lookup "data") →
        ∀ w, fields.lookup "errors" = some w → w ≠ JVal.null →
        Timer.send_query results q (.response d (some (.obj fields))) =
          (results ++ [⟨d, q, ⟨none, some w⟩, Status.failure⟩], true)) ∧
      (nullOrAbsent (fields.lookup "data") →
        nullOrAbsent (fields.lookup "errors") →
        Timer.send_query results q (.response d (some (.obj fields))) =
          (results, false)) ∧
      (∀ v, GraphQLResponse.deserialize v = none →
        Timer.send_query results q (.response d (some v)) = (results, false)) ∧
      (Timer.send_query results q (.response d none) = (results, false)) ∧
      (Timer.send_query results q
          (.response d (some (JVal.obj
            [("data", JVal.null), ("errors", JVal.arr [JVal.str "e"])]))) =
        (results ++ [⟨d, q, ⟨none, some (JVal.arr [JVal.str "e"])⟩,
          Status.failure⟩], true)) ∧
      (Timer.send_query results q
          (.response d (some (JVal.obj
            [("data", JVal.obj [("field", JVal.num 1)])]))) =
        (results ++ [⟨d, q, ⟨some (JVal.obj [("field", JVal.num 1)]), none⟩,
          Status.success⟩], true)) := by
  intro results q d fields
  refine ⟨?_, ?_, ?_, ?_, rfl, rfl, rfl⟩
  · intro v hv hne
    simp [Timer.send_query, GraphQLResponse.deserialize, hv,
      jsonOptField_some_of_ne_null v hne, classifyStatus,
      jsonOptField_some_of_ne_null]
  · intro hdata w hw hne
    simp [Timer.send_query, GraphQLResponse.deserialize, hw,
      jsonOptField_of_nullOrAbsent _ hdata,
      jsonOptField_some_of_ne_null w hne, classifyStatus]
  · intro hdata herr
    simp [Timer.send_query, GraphQLResponse.deserialize,
      jsonOptField_of_nullOrAbsent _ hdata,
      jsonOptField_of_nullOrAbsent _ herr, classifyStatus]
  · intro v hv
    simp [Timer.send_query, hv]

/-- Witness for C2's amended classification at concrete inputs. -/
theorem send_query_classification_witness :
    [("data", JVal.num 2)].lookup "data" = some (JVal.num 2) ∧
    JVal.num 2 ≠ JVal.null ∧
    Timer.send_query [] "q" (.response 3 (some (.obj [("data", JVal.num 2)]))) =
      ([⟨3, "q", ⟨some (JVal.num 2), none⟩, Status.success⟩], true) :=
  ⟨rfl, fun h => JVal.noConfusion h,
    (send_query_classification [] "q" 3 [("data", JVal.num 2)]).1
      (JVal.num 2) rfl (fun h => JVal.noConfusion h)⟩

/-- Rust's `str::split_once(sep)`: split at the first occurrence of
`sep`, which is excluded from both parts; `none` when `sep` is absent. -/
def splitOnceChar (sep : Char) : List Char → Option (List Char × List Char)
  | [] => none
  | c :: cs =>
    if c = sep then some ([], cs)
    else (splitOnceChar sep cs).map (fun p => (c :: p.1, p.2))

/-- Rust's `str::trim`: remove whitespace from both ends.  (Rust trims
Unicode `White_Space`; `Char.isWhitespace` covers the ASCII whitespace
occurring in header strings.) -/
def trimChars (cs : List Char) : List Char :=
  ((cs.dropWhile Char.isWhitespace).reverse.dropWhile Char.isWhitespace).reverse

/-- The per-header closure in `Timer::new` (`src/timer.rs` lines 42-45):
`header.split_once(':').unwrap()` then `trim` both parts.  `none` models
the `unwrap` panic on a header string without a colon (a process abort,
not a returned `Err`). -/
def parseHeader (h : String) : Option (String × String) :=
  (splitOnceChar ':' h.data).map fun p => (⟨trimChars p.1⟩, ⟨trimChars p.2⟩)

/-- The whole `headers.into_iter().map(…).collect()` of `Timer::new`
(`src/timer.rs` lines 40-46): processing stops with a panic (`none`) at
the first header without a colon. -/
def timerHeaders : List String → Option (List (String × String))
  | [] => some []
  | h :: t =>
    match parseHeader h with
    | none => none
    | some kv => (timerHeaders t).map (kv :: ·)

theorem splitOnceChar_append (sep : Char) (a b : List Char) (h : sep ∉ a) :
    splitOnceChar sep (a ++ sep :: b) = some (a, b) := by
  induction a with
  | nil => simp [splitOnceChar]
  | cons c cs ih =>
    have hc : ¬(c = sep) := fun hh => h (hh ▸ List.mem_cons_self c cs)
    simp [splitOnceChar, hc, ih (fun hm => h (List.mem_cons_of_mem c hm))]

theorem splitOnceChar_eq_none (sep : Char) (s : List Char) (h : sep ∉ s) :
    splitOnceChar sep s = none := by
  induction s with
  | nil => rfl
  | cons c cs ih =>
    have hc : ¬(c = sep) := fun hh => h (hh ▸ List.mem_cons_self c cs)
    simp [splitOnceChar, hc, ih (fun hm => h (List.mem_cons_of_mem c hm))]

/-- C10: every extra header string containing a colon is split at its
first colon with both parts trimmed of surrounding whitespace; a header
string without a colon makes `Timer::new` panic (modelled by `none`)
rather than return an error value, and that panic propagates through the
whole header-list processing. -/
theorem header_splitting :
    (∀ (a b : List Char), ':' ∉ a →
      parseHeader ⟨a ++ ':' :: b⟩ = some (⟨trimChars a⟩, ⟨trimChars b⟩)) ∧
    (∀ s : String, ':' ∉ s.data → parseHeader s = none) ∧
    (∀ (hs : List String) (h : String), h ∈ hs → ':' ∉ h.data →
      timerHeaders hs = none) := by
  refine ⟨?_, ?_, ?_⟩
  · intro a b h
    simp [parseHeader, splitOnceChar_append ':' a b h]
  · intro s h
    simp [parseHeader, splitOnceChar_eq_none ':' s.data h]
  · intro hs h hmem hno
    induction hs with
    | nil => cases hmem
    | cons x xs ih =>
      rcases List.mem_cons.mp hmem with rfl | hx
      · have : parseHeader h = none := by
          simp [parseHeader, splitOnceChar_eq_none ':' h.data hno]
        simp [timerHeaders, this]
      · cases hp : parseHeader x with
        | none => simp [timerHeaders, hp]
        | some kv => simp [timerHeaders, hp, ih hx]

/-- Witness for C10 at concrete headers: `"X-Auth :  token "` splits and
trims, and a colon-free header in the list panics. -/
theorem header_splitting_witness :
    (':' ∉ "X-Auth ".data) ∧
    parseHeader "X-Auth :  token " = some ("X-Auth", "token") ∧
    ("nocolon" ∈ ["nocolon"]) ∧ (':' ∉ "nocolon".data) ∧
    timerHeaders ["nocolon"] = none := by
  refine ⟨by decide, ?_, List.mem_singleton.mpr rfl, by decide, ?_⟩
  · have h := header_splitting.1 "X-Auth ".data "  token ".data (by decide)
    simpa using h
  · exact header_splitting.2.2 ["nocolon"] "nocolon"
      (List.mem_singleton.mpr rfl) (by decide)

/-- The observable steps of one `Timer::send_query` call, in the program
order laid out in `src/timer.rs`:
`tcpConnect` = `TcpStream::connect` (lines 149/171),
`tlsHandshake` = `tls.connect` (lines 172-174, https only),
`httpHandshake` = `hyper::client::conn::handshake` (lines 150/175),
`clockStart` = `let before = Instant::now()` (lines 158/183),
`headersReceived` = `sender.send_request(request).await` resolving with
the response head (lines 159/184),
`clockStop` = `Instant::now() - before` (lines 160/185),
`bodyReceived` = `body::to_bytes(response.body_mut()).await` back in
`send_query` (line 82). -/
inductive NetEvent where
  | tcpConnect
  | tlsHandshake
  | httpHandshake
  | clockStart
  | headersReceived
  | clockStop
  | bodyReceived
deriving DecidableEq, Repr

/-- `Timer::send_request_http` (`src/timer.rs` lines 145-163). -/
def send_request_http_events : List NetEvent :=
  [.tcpConnect, .httpHandshake, .clockStart, .headersReceived, .clockStop]

/-- `Timer::send_request_https` (`src/timer.rs` lines 165-188). -/
def send_request_https_events : List NetEvent :=
  [.tcpConnect, .tlsHandshake, .httpHandshake, .clockStart,
   .headersReceived, .clockStop]

/-- The event trace of one `Timer::send_query` call (`src/timer.rs`
lines 75-110): `send_request` picks the transport by scheme, and only
afterwards is the body drained by `body::to_bytes`. -/
def send_query_events (https : Bool) : List NetEvent :=
  (if https then send_request_https_events else send_request_http_events)
    ++ [.bodyReceived]

/-- The events that happen inside the measured window, i.e. strictly
between the two `Instant::now()` reads. -/
def measuredEvents (evs : List NetEvent) : List NetEvent :=
  ((evs.dropWhile (fun x => decide (x ≠ NetEvent.clockStart))).drop 1).takeWhile
    (fun x => decide (x ≠ NetEvent.clockStop))

/-- The events that happen before the duration clock starts. -/
def eventsBeforeClockStart (evs : List NetEvent) : List NetEvent :=
  evs.takeWhile (fun x => decide (x ≠ NetEvent.clockStart))

/-- The events that happen after the duration clock has stopped. -/
def eventsAfterClockStop (evs : List NetEvent) : List NetEvent :=
  (evs.dropWhile (fun x => decide (x ≠ NetEvent.clockStop))).drop 1

/-- C7, counterexample: the response body is drained only after the
second `Instant::now()` read, so body receipt is not inside the measured
window on either transport — the claim that the clock "stops only after
… the response body [has] been fully received" is false of the code. -/
theorem timing_window_counterexample :
    NetEvent.bodyReceived ∈ send_query_events false ∧
    NetEvent.bodyReceived ∉ measuredEvents (send_query_events false) ∧
    NetEvent.bodyReceived ∈ send_query_events true ∧
    NetEvent.bodyReceived ∉ measuredEvents (send_query_events true) := by
  decide

/-- C7, amended: the measured duration starts only after TCP connection
establishment (and, for secure transport, the TLS handshake) and the
HTTP connection handshake have completed, and stops immediately after
the response headers are received; the response body is drained only
after the clock has stopped, so connection setup and body receipt are
both excluded from the reported duration. -/
theorem timing_window :
    ∀ https : Bool,
      measuredEvents (send_query_events https) = [NetEvent.headersReceived] ∧
      NetEvent.tcpConnect ∉ measuredEvents (send_query_events https) ∧
      NetEvent.tlsHandshake ∉ measuredEvents (send_query_events https) ∧
      NetEvent.httpHandshake ∉ measuredEvents (send_query_events https) ∧
      NetEvent.bodyReceived ∈ eventsAfterClockStop (send_query_events https) ∧
      eventsBeforeClockStart (send_query_events true) =
        [.tcpConnect, .tlsHandshake, .httpHandshake] ∧
      eventsBeforeClockStart (send_query_events false) =
        [.tcpConnect, .httpHandshake] := by
  intro https
  cases https <;> decide

mutual
/-- `graphql_parser::query::Selection` as consumed by `src/parser.rs`.
A `field` carries the `Field` struct's components: optional alias,
name, argument list (argument values kept in their `Display`-rendered
form, which is all `arguments_to_str` reads), directive list (likewise
rendered) and nested selection set.  `fragmentSpread` carries the
spread's `fragment_name` and directives; `inlineFragment` carries the
optional type condition (the type name of `on <type>`) and directives. -/
inductive Selection : Type where
  | field (al : Option String) (name : String)
      (arguments : List (String × String)) (directives : List String)
      (selection_set : SelectionList)
  | fragmentSpread (fragment_name : String) (directives : List String)
  | inlineFragment (type_condition : Option String)
      (directives : List String) (selection_set : SelectionList)

/-- The `items` of a `graphql_parser::query::SelectionSet`. -/
inductive SelectionList : Type where
  | nil
  | cons (s : Selection) (rest : SelectionList)
end

/-- `SelectionSet::items.is_empty()`. -/
def SelectionList.isEmpty : SelectionList → Bool
  | .nil => true
  | .cons _ _ => false

/-- List concatenation on selection lists. -/
def SelectionList.append : SelectionList → SelectionList → SelectionList
  | .nil, ys => ys
  | .cons s rest, ys => .cons s (rest.append ys)

/-- `graphql_parser::query::FragmentDefinition`: name, type condition
(the type name of the mandatory `on <type>`), directives, selection set. -/
structure FragmentDefinition where
  name : String
  type_condition : String
  directives : List String
  selection_set : SelectionList

/-- `graphql_parser::query::Query`: optional name, variable definitions
(kept in their `Display`-rendered form) and directives, plus the
selection set. -/
structure Query where
  name : Option String
  variable_definitions : List String
  directives : List String
  selection_set : SelectionList

/-- `graphql_parser::query::OperationDefinition`.  `Mutation` and
`Subscription` have the same shape as `Query` in the crate; only the
`Query` variant is processed by `parse_document`. -/
inductive OperationDefinition where
  | query (q : Query)
  | mutation (m : Query)
  | subscription (s : Query)
  | selectionSet (ss : SelectionList)

/-- `graphql_parser::query::Definition`. -/
inductive Definition where
  | operation (op : OperationDefinition)
  | fragment (f : FragmentDefinition)

/-- `graphql_parser::query::Document`. -/
structure Document where
  definitions : List Definition

/-- The fragment table built at `src/parser.rs` lines 21-28: the
`(name, definition)` pairs of all fragment definitions, in document
order. -/
def fragmentTable (defs : List Definition) : List (String × FragmentDefinition) :=
  defs.filterMap (fun d => match d with
    | .fragment f => some (f.name, f)
    | _ => none)

/-- Lookup in the collected `BTreeMap`: a later duplicate key overwrites
an earlier one during `collect`, so the last binding wins. -/
def lookupFragment (frags : List (String × FragmentDefinition)) (n : String) :
    Option FragmentDefinition :=
  frags.reverse.lookup n

/-- `directives_to_str` (`src/parser.rs` lines 203-209): space-joined
rendered directives. -/
def directives_to_str (dirs : List String) : String :=
  String.intercalate " " dirs

/-- `arguments_to_str` (`src/parser.rs` lines 186-201): empty string for
no arguments, otherwise comma-joined `name: value` pairs in parentheses. -/
def arguments_to_str (args : List (String × String)) : String :=
  if args.isEmpty then ""
  else "(" ++ String.intercalate ", " (args.map (fun p => p.1 ++ ": " ++ p.2)) ++ ")"

/-- `variable_definitions_to_str` (`src/parser.rs` lines 211-217):
comma-joined rendered variable definitions. -/
def variable_definitions_to_str (defs : List String) : String :=
  String.intercalate ", " defs

/-- The path segment pushed by `handle_field` (`src/parser.rs` lines
102-112): `format!("{}{}{} {}", alias-part, name, args, directives)`. -/
def fieldSegment (al : Option String) (name : String)
    (args : List (String × String)) (dirs : List String) : String :=
  (match al with
   | some a => a ++ ": "
   | none => "") ++ name ++ arguments_to_str args ++ " " ++ directives_to_str dirs

/-- The root path segment pushed by `handle_query` (`src/parser.rs`
lines 50-59): `format!("query {}({}) {}", name-or-empty, vardefs, dirs)`. -/
def querySegment (q : Query) : String :=
  "query " ++ (q.name.getD "") ++ "(" ++
    variable_definitions_to_str q.variable_definitions ++ ") " ++
    directives_to_str q.directives

/-- The path segment pushed by `handle_fragment_spread` (`src/parser.rs`
lines 142-147): `format!("... {} {}", type_condition, dirs)`, where the
`TypeCondition`'s `Display` renders as `on <type>`. -/
def spreadSegment (f : FragmentDefinition) : String :=
  "... on " ++ f.type_condition ++ " " ++ directives_to_str f.directives

/-- The path segment pushed by `handle_inline_fragment` (`src/parser.rs`
lines 162-170): `format!("... on {} {}", cond, dirs)` when a type
condition is present, and the EMPTY string when it is absent (the
`None => "".to_string()` arm at line 169). -/
def inlineSegment (type_condition : Option String) (dirs : List String) : String :=
  match type_condition with
  | some cond => "... on " ++ cond ++ " " ++ directives_to_str dirs
  | none => ""

/-- The serialization built by `path_to_query` (`src/parser.rs` lines
175-184): join the path segments with `" { "` and append one `"}"` per
segment after the first, the braces joined by `" "`.  The final round
trip through the external `graphql_parser` grammar (`parse_query`
followed by `Display`) is modelled as the identity on this string; that
is faithful only for grammatical serializations (spec §4.1: a
canonical, guaranteed-valid reprint), which all uses of this total
function below produce.  The round trip's error path (`?` at
`src/parser.rs` line 182) is made explicit in `path_to_query_checked`
below, which the reachable ungrammatical serializations — paths with an
empty segment — require. -/
def path_to_query (path : List String) : String :=
  String.intercalate " \x7b " path ++
    String.intercalate " " ((path.drop 1).map (fun _ => "\x7d"))

/-- The error component of the flattening walk: `fragmentNotFound`
models `anyhow::bail!("cannot find fragment with name {}")`
(`src/parser.rs` lines 136-139); `reserializationFailed` models the `?`
on `graphql_parser::parse_query` inside `path_to_query`
(`src/parser.rs` line 182) rejecting an ungrammatical serialization;
`divergence` marks exhaustion of the fuel that bounds the recursion
through fragment spreads, which the source performs unboundedly (it
does not terminate on cyclic fragments). -/
inductive FlattenError where
  | fragmentNotFound (name : String)
  | reserializationFailed
  | divergence
deriving DecidableEq, Repr

mutual
/-- `handle_selection_set` (`src/parser.rs` lines 66-89): process the
items in order, dispatching on the variant; the `?` stops at the first
error.  The pair returned is (queries pushed to the shared `&mut Vec`,
error if any): queries pushed before an error are kept, exactly like
the source's in-place pushes. -/
def handle_selection_set (fuel : Nat) (path : List String)
    (ss : SelectionList) (frags : List (String × FragmentDefinition)) :
    List String × Option FlattenError :=
  match ss with
  | .nil => ([], none)
  | .cons s rest =>
    match handle_item fuel path s frags with
    | (qs, some e) => (qs, some e)
    | (qs, none) =>
      match handle_selection_set fuel path rest frags with
      | (qs2, e) => (qs ++ qs2, e)
termination_by (fuel, 4 * sizeOf ss)

/-- The dispatch `match item { … }` inside `handle_selection_set`
(`src/parser.rs` lines 77-85). -/
def handle_item (fuel : Nat) (path : List String) (s : Selection)
    (frags : List (String × FragmentDefinition)) :
    List String × Option FlattenError :=
  match s with
  | .field al name args dirs fss => handle_field fuel path al name args dirs fss frags
  | .fragmentSpread fname dirs => handle_fragment_spread fuel path fname dirs frags
  | .inlineFragment tc dirs iss => handle_inline_fragment fuel path tc dirs iss frags
termination_by (fuel, 4 * sizeOf s + 1)

/-- `handle_field` (`src/parser.rs` lines 91-122): copy the path, push
the field segment; a field with an empty nested selection set is a leaf
and serializes the path, otherwise recurse into the nested set. -/
def handle_field (fuel : Nat) (path : List String) (al : Option String)
    (name : String) (args : List (String × String)) (dirs : List String)
    (fss : SelectionList) (frags : List (String × FragmentDefinition)) :
    List String × Option FlattenError :=
  let path := path ++ [fieldSegment al name args dirs]
  if fss.isEmpty then ([path_to_query path], none)
  else handle_selection_set fuel path fss frags
termination_by (fuel, 4 * sizeOf fss + 3)

/-- `handle_fragment_spread` (`src/parser.rs` lines 124-150): resolve
the name in the fragment table, failing with `fragmentNotFound` when
absent; otherwise push the spread segment and recurse into the
fragment's selection set (spending one unit of fuel for the unbounded
source recursion). -/
def handle_fragment_spread (fuel : Nat) (path : List String)
    (fname : String) (dirs : List String)
    (frags : List (String × FragmentDefinition)) :
    List String × Option FlattenError :=
  match lookupFragment frags fname with
  | none => ([], some (.fragmentNotFound fname))
  | some frag =>
    match fuel with
    | 0 => ([], some .divergence)
    | fuel' + 1 =>
      handle_selection_set fuel' (path ++ [spreadSegment frag])
        frag.selection_set frags
termination_by (fuel, 0)

/-- `handle_inline_fragment` (`src/parser.rs` lines 152-173): push the
inline-fragment segment and recurse into its selection set. -/
def handle_inline_fragment (fuel : Nat) (path : List String)
    (tc : Option String) (dirs : List String) (iss : SelectionList)
    (frags : List (String × FragmentDefinition)) :
    List String × Option FlattenError :=
  handle_selection_set fuel (path ++ [inlineSegment tc dirs]) iss frags
termination_by (fuel, 4 * sizeOf iss + 3)
end

/-- `handle_query` (`src/parser.rs` lines 40-64): walk the operation's
selection set from the root path holding the single rendered operation
header segment. -/
def handle_query (fuel : Nat) (q : Query)
    (frags : List (String × FragmentDefinition)) :
    List String × Option FlattenError :=
  handle_selection_set fuel [querySegment q] q.selection_set frags

/-- The query-type operations of a document, in document order
(`src/parser.rs` lines 30-33). -/
def docQueries (doc : Document) : List Query :=
  doc.definitions.filterMap (fun d => match d with
    | .operation (.query q) => some q
    | _ => none)

/-- The `for query in …` loop of `parse_document`: each operation's
pushes are appended, in order, to the shared vector. -/
def run_queries (fuel : Nat) (qs : List Query)
    (frags : List (String × FragmentDefinition)) : List String :=
  match qs with
  | [] => []
  | q :: rest => (handle_query fuel q frags).1 ++ run_queries fuel rest frags

/-- `parse_document` (`src/parser.rs` lines 15-38).  NOTE: the source
calls `handle_query` WITHOUT `?` and discards its `anyhow::Result`
(line 34); the queries pushed before an error are kept and the error is
dropped, so this function returns a plain `Vec<String>` with no error
channel.  `fuel` bounds the recursion through fragment spreads, which
the source performs unboundedly. -/
def parse_document (fuel : Nat) (doc : Document) : List String :=
  run_queries fuel (docQueries doc) (fragmentTable doc.definitions)

/-- A mutual induction principle for `Selection` and `SelectionList`,
packaged from the auto-generated mutual recursors. -/
theorem selection_mutual_ind (Ps : Selection → Prop) (Pl : SelectionList → Prop)
    (hfield : ∀ al name args dirs ss, Pl ss → Ps (.field al name args dirs ss))
    (hspread : ∀ n dirs, Ps (.fragmentSpread n dirs))
    (hinline : ∀ tc dirs ss, Pl ss → Ps (.inlineFragment tc dirs ss))
    (hnil : Pl .nil)
    (hcons : ∀ s rest, Ps s → Pl rest → Pl (.cons s rest)) :
    (∀ s, Ps s) ∧ (∀ l, Pl l) :=
  ⟨fun s => Selection.rec hfield hspread hinline hnil hcons s,
   fun l => SelectionList.rec hfield hspread hinline hnil hcons l⟩

/-- The document `query \x7b a ...F \x7d` with no definition of `F`:
one query operation whose selection set holds the leaf field `a`
followed by the unresolvable spread `...F`. -/
def missingFragDoc : Document :=
  ⟨[.operation (.query ⟨none, [], [],
      .cons (.field none "a" [] [] .nil)
        (.cons (.fragmentSpread "F" []) .nil)⟩)]⟩

/-- C1 (code bug): on a document with an unresolved fragment spread the
walk does produce a fragment-not-found error naming `F` — but
`parse_document` (`src/parser.rs` line 34) discards `handle_query`'s
`Result`, so the error is dropped and the queries flattened before the
failing spread are still returned; `main` then sends each of them over
the network.  The claimed behavior — the run aborts and no network
request is issued — does not hold. -/
theorem missing_fragment_error_dropped :
    ∀ fuel : Nat,
      handle_query fuel
          ⟨none, [], [], .cons (.field none "a" [] [] .nil)
            (.cons (.fragmentSpread "F" []) .nil)⟩
          (fragmentTable missingFragDoc.definitions) =
        (["query ()  \x7b a \x7d"], some (FlattenError.fragmentNotFound "F")) ∧
      parse_document fuel missingFragDoc = ["query ()  \x7b a \x7d"] := by
  intro fuel
  constructor <;>
    (simp [parse_document, run_queries, docQueries, missingFragDoc, fragmentTable,
      handle_query, handle_selection_set, handle_item, handle_field,
      handle_fragment_spread, lookupFragment, SelectionList.isEmpty,
      querySegment, fieldSegment,
      variable_definitions_to_str, directives_to_str, arguments_to_str]
     <;> rfl)

/-- The document `query \x7b a \x7b ... @skip \x7b b \x7d \x7d \x7d`:
an inline fragment with no type condition but with a directive, nested
under field `a`. -/
def inlineNoCondDoc : Document :=
  ⟨[.operation (.query ⟨none, [], [],
      .cons (.field none "a" [] []
        (.cons (.inlineFragment none ["@skip"]
          (.cons (.field none "b" [] [] .nil) .nil)) .nil)) .nil⟩)]⟩

/-- C6 (code bug in the no-type-condition case): with a type condition
`handle_inline_fragment` renders `... on <type> <directives>` as
claimed, but with no type condition the `None => "".to_string()` arm
(`src/parser.rs` line 169) appends the EMPTY segment — the `...` marker
and the directive list are dropped, not kept.  The walk still recurses
with the extended (empty-segment) path, and on the example document the
serialized query contains the adjacent braces `\x7b  \x7b` produced by
the empty segment, which no query-language grammar accepts. -/
theorem inline_fragment_no_condition_empty_segment :
    inlineSegment (some "T") ["@skip"] = "... on T @skip" ∧
    inlineSegment none ["@skip"] = "" ∧
    (∀ (fuel : Nat) (path : List String) (iss : SelectionList)
        (frags : List (String × FragmentDefinition)),
      handle_inline_fragment fuel path none ["@skip"] iss frags =
        handle_selection_set fuel (path ++ [""]) iss frags) ∧
    (∀ fuel : Nat, parse_document fuel inlineNoCondDoc =
      ["query ()  \x7b a  \x7b  \x7b b \x7d \x7d \x7d"]) := by
  refine ⟨rfl, rfl, ?_, ?_⟩
  · intro fuel path iss frags
    simp [handle_inline_fragment, inlineSegment]
  · intro fuel
    simp [parse_document, run_queries, docQueries, inlineNoCondDoc, fragmentTable,
      handle_query, handle_selection_set, handle_item, handle_field,
      handle_inline_fragment, lookupFragment, SelectionList.isEmpty,
      querySegment, fieldSegment, inlineSegment,
      variable_definitions_to_str, directives_to_str, arguments_to_str]
    rfl

/-- The sibling-independence property of the flattening walk for a
selection list `xs`: processed in front of any sibling list `ys` from a
shared path, the queries `xs` contributes are exactly those of
processing `xs` alone, and `ys` is then processed from the SAME path,
contributing exactly the queries of processing `ys` alone — no segment
appended while processing `xs` reaches `ys`'s path or queries (and on
an error inside `xs`, `ys` is not processed at all). -/
def SiblingProp (xs : SelectionList) : Prop :=
  ∀ (fuel : Nat) (frags : List (String × FragmentDefinition))
    (path : List String) (ys : SelectionList),
    (∀ qs1, handle_selection_set fuel path xs frags = (qs1, none) →
      handle_selection_set fuel path (xs.append ys) frags =
        (qs1 ++ (handle_selection_set fuel path ys frags).1,
         (handle_selection_set fuel path ys frags).2)) ∧
    (∀ qs1 e1, handle_selection_set fuel path xs frags = (qs1, some e1) →
      handle_selection_set fuel path (xs.append ys) frags = (qs1, some e1))

theorem siblingProp_all : ∀ l : SelectionList, SiblingProp l := by
  refine (selection_mutual_ind (fun _ => True) SiblingProp
    (fun _ _ _ _ _ _ => trivial) (fun _ _ => trivial) (fun _ _ _ _ => trivial)
    ?_ ?_).2
  · intro fuel frags path ys
    constructor
    · intro qs1 h
      have h0 : handle_selection_set fuel path SelectionList.nil frags =
          ([], none) := by simp [handle_selection_set]
      rw [h0] at h
      obtain ⟨rfl, -⟩ : [] = qs1 ∧ (none : Option FlattenError) = none := by
        simpa [Prod.ext_iff] using h
      simp [SelectionList.append]
    · intro qs1 e1 h
      simp [handle_selection_set] at h
  · intro s rest htriv ih fuel frags path ys
    have hcons_eq : ∀ zs, handle_selection_set fuel path (.cons s zs) frags =
        (match handle_item fuel path s frags with
         | (qs, some e) => (qs, some e)
         | (qs, none) =>
           match handle_selection_set fuel path zs frags with
           | (qs2, e) => (qs ++ qs2, e)) := by
      intro zs
      simp [handle_selection_set]
    constructor
    · intro qs1 h
      rw [hcons_eq] at h
      rw [show (SelectionList.cons s rest).append ys =
        .cons s (rest.append ys) from rfl, hcons_eq]
      cases hi : handle_item fuel path s frags with
      | mk qs oe =>
        cases oe with
        | some e => rw [hi] at h; simp at h
        | none =>
          rw [hi] at h
          cases hr : handle_selection_set fuel path rest frags with
          | mk qs2 e2 =>
            rw [hr] at h
            cases e2 with
            | some e2v => simp [Prod.ext_iff] at h
            | none =>
              obtain ⟨rfl, -⟩ : qs ++ qs2 = qs1 ∧ True := by
                simpa [Prod.ext_iff] using h
              have happ := (ih fuel frags path ys).1 qs2 hr
              rw [happ]
              simp [List.append_assoc]
    · intro qs1 e1 h
      rw [hcons_eq] at h
      rw [show (SelectionList.cons s rest).append ys =
        .cons s (rest.append ys) from rfl, hcons_eq]
      cases hi : handle_item fuel path s frags with
      | mk qs oe =>
        cases oe with
        | some e =>
          rw [hi] at h
          obtain ⟨rfl, he⟩ : qs = qs1 ∧ (some e : Option FlattenError) = some e1 := by
            simpa [Prod.ext_iff] using h
          exact congrArg (Prod.mk qs) he
        | none =>
          rw [hi] at h
          cases hr : handle_selection_set fuel path rest frags with
          | mk qs2 e2 =>
            rw [hr] at h
            obtain ⟨rfl, he⟩ : qs ++ qs2 = qs1 ∧ e2 = some e1 := by
              simpa [Prod.ext_iff] using h
            subst he
            have happ := (ih fuel frags path ys).2 qs2 e1 hr
            rw [happ]

/-- C8: during the flattening walk the path is passed by value — each
child of a selection set is processed from the same, unextended parent
path, so the queries produced for a later sibling block `ys` are exactly
those of processing `ys` alone from that shared path: nothing appended
while processing the earlier siblings `xs` appears in `ys`'s path or in
any Standalone Query produced for `ys`. -/
theorem sibling_branches_independent :
    ∀ (xs ys : SelectionList) (fuel : Nat)
      (frags : List (String × FragmentDefinition)) (path : List String),
      (∀ qs1, handle_selection_set fuel path xs frags = (qs1, none) →
        handle_selection_set fuel path (xs.append ys) frags =
          (qs1 ++ (handle_selection_set fuel path ys frags).1,
           (handle_selection_set fuel path ys frags).2)) ∧
      (∀ qs1 e1, handle_selection_set fuel path xs frags = (qs1, some e1) →
        handle_selection_set fuel path (xs.append ys) frags = (qs1, some e1)) :=
  fun xs ys fuel frags path => siblingProp_all xs fuel frags path ys

/-- Witness for C8 at two concrete sibling leaf fields `a` and `b`. -/
theorem sibling_branches_independent_witness :
    handle_selection_set 0 ["root "]
        (.cons (.field none "a" [] [] .nil) .nil) [] =
      ([path_to_query ["root ", fieldSegment none "a" [] []]], none) ∧
    handle_selection_set 0 ["root "]
        ((SelectionList.cons (.field none "a" [] [] .nil) .nil).append
          (.cons (.field none "b" [] [] .nil) .nil)) [] =
      ([path_to_query ["root ", fieldSegment none "a" [] []]] ++
        (handle_selection_set 0 ["root "]
          (.cons (.field none "b" [] [] .nil) .nil) []).1,
       (handle_selection_set 0 ["root "]
          (.cons (.field none "b" [] [] .nil) .nil) []).2) := by
  have heval : handle_selection_set 0 ["root "]
      (.cons (.field none "a" [] [] .nil) .nil) [] =
      ([path_to_query ["root ", fieldSegment none "a" [] []]], none) := by
    simp [handle_selection_set, handle_item, handle_field, SelectionList.isEmpty]
  exact ⟨heval,
    (sibling_branches_independent
      (.cons (.field none "a" [] [] .nil) .nil)
      (.cons (.field none "b" [] [] .nil) .nil) 0 [] ["root "]).1
      [path_to_query ["root ", fieldSegment none "a" [] []]] heval⟩

mutual
/-- Whether a selection contains no fragment spread anywhere below it. -/
def spreadFreeSel : Selection → Bool
  | .field _ _ _ _ ss => spreadFreeList ss
  | .fragmentSpread _ _ => false
  | .inlineFragment _ _ ss => spreadFreeList ss

/-- Whether a selection list contains no fragment spread anywhere. -/
def spreadFreeList : SelectionList → Bool
  | .nil => true
  | .cons s rest => spreadFreeSel s && spreadFreeList rest
end

mutual
/-- The number of terminal (leaf) fields — fields with an empty nested
selection set — below a selection, in the sense of the spec (§8). -/
def leafCountSel : Selection → Nat
  | .field _ _ _ _ ss => if ss.isEmpty then 1 else leafCountList ss
  | .fragmentSpread _ _ => 0
  | .inlineFragment _ _ ss => leafCountList ss

/-- The number of terminal (leaf) fields below a selection list. -/
def leafCountList : SelectionList → Nat
  | .nil => 0
  | .cons s rest => leafCountSel s + leafCountList rest
end

mutual
/-- The depth-first, left-to-right list of serialized leaf queries below
a selection, carrying the path from the root — the specification-side
description of the flattening output (spec §4.1 "Ordering"), written as
a direct tree fold with no error channel and no fragment table. -/
def leafQueriesSel (path : List String) : Selection → List String
  | .field al name args dirs ss =>
      if ss.isEmpty then [path_to_query (path ++ [fieldSegment al name args dirs])]
      else leafQueriesList (path ++ [fieldSegment al name args dirs]) ss
  | .fragmentSpread _ _ => []
  | .inlineFragment tc dirs ss => leafQueriesList (path ++ [inlineSegment tc dirs]) ss

/-- Depth-first leaf queries below a selection list. -/
def leafQueriesList (path : List String) : SelectionList → List String
  | .nil => []
  | .cons s rest => leafQueriesSel path s ++ leafQueriesList path rest
end

/-- Each selection contributes as many leaf queries as it has leaf
fields, whatever the path. -/
theorem leafQueries_length :
    (∀ s : Selection, ∀ path : List String,
      (leafQueriesSel path s).length = leafCountSel s) ∧
    (∀ l : SelectionList, ∀ path : List String,
      (leafQueriesList path l).length = leafCountList l) := by
  refine selection_mutual_ind
    (fun s => ∀ path : List String, (leafQueriesSel path s).length = leafCountSel s)
    (fun l => ∀ path : List String, (leafQueriesList path l).length = leafCountList l)
    ?_ ?_ ?_ ?_ ?_
  · intro al name args dirs ss ih path
    cases hss : ss.isEmpty <;> simp [leafQueriesSel, leafCountSel, hss, ih]
  · intro n dirs path
    simp [leafQueriesSel, leafCountSel]
  · intro tc dirs ss ih path
    simp [leafQueriesSel, leafCountSel, ih]
  · intro path
    simp [leafQueriesList, leafCountList]
  · intro s rest ihs ihl path
    simp [leafQueriesList, leafCountList, ihs, ihl]

/-- Whether a definition's selection sets contain no fragment spread. -/
def spreadFreeDef : Definition → Bool
  | .operation (.query q) => spreadFreeList q.selection_set
  | .operation (.mutation m) => spreadFreeList m.selection_set
  | .operation (.subscription s) => spreadFreeList s.selection_set
  | .operation (.selectionSet ss) => spreadFreeList ss
  | .fragment f => spreadFreeList f.selection_set

/-- Whether the document contains no fragment definitions. -/
def noFragmentDefinitions (doc : Document) : Bool :=
  doc.definitions.all (fun d => match d with
    | .fragment _ => false
    | _ => true)

/-- Whether the document contains no fragment spread anywhere. -/
def spreadFreeDoc (doc : Document) : Bool :=
  doc.definitions.all spreadFreeDef

/-- The depth-first, left-to-right leaf queries of all query operations
of the document, in document order — the specification-side description
of the whole flattening output. -/
def dfsLeafQueries (doc : Document) : List String :=
  (docQueries doc).foldr
    (fun q acc => leafQueriesList [querySegment q] q.selection_set ++ acc) []

/-- The total number of terminal fields of the document's query
operations. -/
def docLeafCount (doc : Document) : Nat :=
  (docQueries doc).foldr (fun q acc => leafCountList q.selection_set + acc) 0

/-- The spec's end-to-end example document `query \x7b user \x7b name
age \x7d \x7d`: a single anonymous query, field `user` with the two
leaf fields `name` and `age`, no fragments. -/
def userNameAgeDoc : Document :=
  ⟨[.operation (.query ⟨none, [], [],
      .cons (.field none "user" [] []
        (.cons (.field none "name" [] [] .nil)
          (.cons (.field none "age" [] [] .nil) .nil))) .nil⟩)]⟩

/-- `path_to_query` with the external round trip's error path made
explicit.  Modelled from the spec: the external grammar reprint (§4.1;
§7 "re-serialization failure") is the identity on grammatical
serializations and fails on ungrammatical ones; among the paths this
walk can feed it, exactly those containing an empty segment — the
condition-less inline-fragment segment of `src/parser.rs` line 169 —
serialize ungrammatically, to the adjacent braces `\x7b  \x7b` that no
selection set may contain, while every other segment is the reprint of
syntax from the parsed input document. -/
def path_to_query_checked (path : List String) : Option String :=
  if path.any (fun s => decide (s = "")) then none
  else some (path_to_query path)

mutual
/-- `handle_selection_set` with the fallible re-serialization interface
of `path_to_query_checked` (otherwise identical to
`handle_selection_set`). -/
def handle_selection_set_checked (fuel : Nat) (path : List String)
    (ss : SelectionList) (frags : List (String × FragmentDefinition)) :
    List String × Option FlattenError :=
  match ss with
  | .nil => ([], none)
  | .cons s rest =>
    match handle_item_checked fuel path s frags with
    | (qs, some e) => (qs, some e)
    | (qs, none) =>
      match handle_selection_set_checked fuel path rest frags with
      | (qs2, e) => (qs ++ qs2, e)
termination_by (fuel, 4 * sizeOf ss)

/-- The dispatch of `handle_selection_set` (`src/parser.rs` lines
77-85), checked variant. -/
def handle_item_checked (fuel : Nat) (path : List String) (s : Selection)
    (frags : List (String × FragmentDefinition)) :
    List String × Option FlattenError :=
  match s with
  | .field al name args dirs fss =>
      handle_field_checked fuel path al name args dirs fss frags
  | .fragmentSpread fname dirs =>
      handle_fragment_spread_checked fuel path fname dirs frags
  | .inlineFragment tc dirs iss =>
      handle_inline_fragment_checked fuel path tc dirs iss frags
termination_by (fuel, 4 * sizeOf s + 1)

/-- `handle_field` (`src/parser.rs` lines 91-122), checked variant: the
leaf push `field_queries.push(path_to_query(&path)?)` (line 116) fails
when the re-serialization does. -/
def handle_field_checked (fuel : Nat) (path : List String)
    (al : Option String) (name : String) (args : List (String × String))
    (dirs : List String) (fss : SelectionList)
    (frags : List (String × FragmentDefinition)) :
    List String × Option FlattenError :=
  let path := path ++ [fieldSegment al name args dirs]
  if fss.isEmpty then
    match path_to_query_checked path with
    | none => ([], some FlattenError.reserializationFailed)
    | some q => ([q], none)
  else handle_selection_set_checked fuel path fss frags
termination_by (fuel, 4 * sizeOf fss + 3)

/-- `handle_fragment_spread` (`src/parser.rs` lines 124-150), checked
variant. -/
def handle_fragment_spread_checked (fuel : Nat) (path : List String)
    (fname : String) (dirs : List String)
    (frags : List (String × FragmentDefinition)) :
    List String × Option FlattenError :=
  match lookupFragment frags fname with
  | none => ([], some (.fragmentNotFound fname))
  | some frag =>
    match fuel with
    | 0 => ([], some .divergence)
    | fuel' + 1 =>
      handle_selection_set_checked fuel' (path ++ [spreadSegment frag])
        frag.selection_set frags
termination_by (fuel, 0)

/-- `handle_inline_fragment` (`src/parser.rs` lines 152-173), checked
variant. -/
def handle_inline_fragment_checked (fuel : Nat) (path : List String)
    (tc : Option String) (dirs : List String) (iss : SelectionList)
    (frags : List (String × FragmentDefinition)) :
    List String × Option FlattenError :=
  handle_selection_set_checked fuel (path ++ [inlineSegment tc dirs]) iss frags
termination_by (fuel, 4 * sizeOf iss + 3)
end

/-- `handle_query` (`src/parser.rs` lines 40-64), checked variant. -/
def handle_query_checked (fuel : Nat) (q : Query)
    (frags : List (String × FragmentDefinition)) :
    List String × Option FlattenError :=
  handle_selection_set_checked fuel [querySegment q] q.selection_set frags

/-- The `for query in …` loop of `parse_document`, checked variant. -/
def run_queries_checked (fuel : Nat) (qs : List Query)
    (frags : List (String × FragmentDefinition)) : List String :=
  match qs with
  | [] => []
  | q :: rest =>
      (handle_query_checked fuel q frags).1 ++ run_queries_checked fuel rest frags

/-- `parse_document` (`src/parser.rs` lines 15-38) over the checked
walk: as in `parse_document`, the error of each `handle_query` call is
discarded (line 34) and the queries pushed before it are kept. -/
def parse_document_checked (fuel : Nat) (doc : Document) : List String :=
  run_queries_checked fuel (docQueries doc) (fragmentTable doc.definitions)

theorem querySegment_ne_empty (q : Query) : querySegment q ≠ "" := by
  intro h
  have h2 := congrArg String.length h
  simp only [querySegment, String.length_append,
    show ("query " : String).length = 6 from rfl,
    show ("(" : String).length = 1 from rfl,
    show (") " : String).length = 2 from rfl,
    show ("" : String).length = 0 from rfl] at h2
  omega

theorem fieldSegment_ne_empty (al : Option String) (name : String)
    (args : List (String × String)) (dirs : List String) :
    fieldSegment al name args dirs ≠ "" := by
  intro h
  have h2 := congrArg String.length h
  simp only [fieldSegment, String.length_append,
    show (" " : String).length = 1 from rfl,
    show ("" : String).length = 0 from rfl] at h2
  omega

theorem inlineSegment_some_ne_empty (c : String) (dirs : List String) :
    inlineSegment (some c) dirs ≠ "" := by
  intro h
  have h2 := congrArg String.length h
  simp only [inlineSegment, String.length_append,
    show ("... on " : String).length = 7 from rfl,
    show (" " : String).length = 1 from rfl,
    show ("" : String).length = 0 from rfl] at h2
  omega

theorem path_to_query_checked_of_nonempty (p : List String)
    (h : ∀ s ∈ p, s ≠ "") :
    path_to_query_checked p = some (path_to_query p) := by
  unfold path_to_query_checked
  rw [if_neg]
  intro hx
  obtain ⟨s, hs, he⟩ := List.any_eq_true.mp hx
  exact h s hs (of_decide_eq_true he)

mutual
/-- Whether every inline fragment below a selection carries a type
condition. -/
def inlineCondSel : Selection → Bool
  | .field _ _ _ _ ss => inlineCondList ss
  | .fragmentSpread _ _ => true
  | .inlineFragment tc _ ss => tc.isSome && inlineCondList ss

/-- Whether every inline fragment below a selection list carries a type
condition. -/
def inlineCondList : SelectionList → Bool
  | .nil => true
  | .cons s rest => inlineCondSel s && inlineCondList rest
end

/-- Whether every inline fragment in a definition carries a type
condition. -/
def inlineCondDef : Definition → Bool
  | .operation (.query q) => inlineCondList q.selection_set
  | .operation (.mutation m) => inlineCondList m.selection_set
  | .operation (.subscription s) => inlineCondList s.selection_set
  | .operation (.selectionSet ss) => inlineCondList ss
  | .fragment f => inlineCondList f.selection_set

/-- Whether every inline fragment in the document carries a type
condition. -/
def inlineCondDoc (doc : Document) : Bool :=
  doc.definitions.all inlineCondDef

/-- On spread-free input whose inline fragments all carry a type
condition, the checked walk never produces an empty segment, every leaf
re-serializes, and the result is exactly the depth-first leaf queries. -/
theorem handle_checked_ok :
    (∀ s : Selection, ∀ (fuel : Nat)
      (frags : List (String × FragmentDefinition)) (path : List String),
      (∀ seg ∈ path, seg ≠ "") → spreadFreeSel s = true →
      inlineCondSel s = true →
      handle_item_checked fuel path s frags = (leafQueriesSel path s, none)) ∧
    (∀ l : SelectionList, ∀ (fuel : Nat)
      (frags : List (String × FragmentDefinition)) (path : List String),
      (∀ seg ∈ path, seg ≠ "") → spreadFreeList l = true →
      inlineCondList l = true →
      handle_selection_set_checked fuel path l frags =
        (leafQueriesList path l, none)) := by
  refine selection_mutual_ind
    (fun s => ∀ (fuel : Nat) (frags : List (String × FragmentDefinition))
      (path : List String), (∀ seg ∈ path, seg ≠ "") →
      spreadFreeSel s = true → inlineCondSel s = true →
      handle_item_checked fuel path s frags = (leafQueriesSel path s, none))
    (fun l => ∀ (fuel : Nat) (frags : List (String × FragmentDefinition))
      (path : List String), (∀ seg ∈ path, seg ≠ "") →
      spreadFreeList l = true → inlineCondList l = true →
      handle_selection_set_checked fuel path l frags =
        (leafQueriesList path l, none))
    ?_ ?_ ?_ ?_ ?_
  · intro al name args dirs ss ih fuel frags path hpath hsf hic
    rw [spreadFreeSel] at hsf
    rw [inlineCondSel] at hic
    have hpath2 : ∀ seg ∈ path ++ [fieldSegment al name args dirs], seg ≠ "" := by
      intro seg hseg
      rcases List.mem_append.mp hseg with hmem | hmem
      · exact hpath seg hmem
      · rw [List.mem_singleton.mp hmem]
        exact fieldSegment_ne_empty al name args dirs
    cases hss : ss.isEmpty with
    | true =>
      simp [handle_item_checked, handle_field_checked, leafQueriesSel, hss,
        path_to_query_checked_of_nonempty _ hpath2]
    | false =>
      simp [handle_item_checked, handle_field_checked, leafQueriesSel, hss,
        ih fuel frags _ hpath2 hsf hic]
  · intro n dirs fuel frags path hpath hsf hic
    rw [spreadFreeSel] at hsf
    exact absurd hsf (by simp)
  · intro tc dirs ss ih fuel frags path hpath hsf hic
    rw [spreadFreeSel] at hsf
    rw [inlineCondSel, Bool.and_eq_true] at hic
    obtain ⟨c, rfl⟩ : ∃ c, tc = some c := by
      cases tc with
      | none => simp at hic
      | some c => exact ⟨c, rfl⟩
    have hpath2 : ∀ seg ∈ path ++ [inlineSegment (some c) dirs], seg ≠ "" := by
      intro seg hseg
      rcases List.mem_append.mp hseg with hmem | hmem
      · exact hpath seg hmem
      · rw [List.mem_singleton.mp hmem]
        exact inlineSegment_some_ne_empty c dirs
    simp [handle_item_checked, handle_inline_fragment_checked, leafQueriesSel,
      ih fuel frags _ hpath2 hsf hic.2]
  · intro fuel frags path hpath hsf hic
    simp [handle_selection_set_checked, leafQueriesList]
  · intro s rest ihs ihl fuel frags path hpath hsf hic
    rw [spreadFreeList, Bool.and_eq_true] at hsf
    rw [inlineCondList, Bool.and_eq_true] at hic
    simp [handle_selection_set_checked, leafQueriesList,
      ihs fuel frags path hpath hsf.1 hic.1,
      ihl fuel frags path hpath hsf.2 hic.2]

theorem run_queries_checked_ok (fuel : Nat)
    (frags : List (String × FragmentDefinition)) :
    ∀ qs : List Query,
      (∀ q ∈ qs, spreadFreeList q.selection_set = true ∧
        inlineCondList q.selection_set = true) →
      run_queries_checked fuel qs frags =
        qs.foldr (fun q acc =>
          leafQueriesList [querySegment q] q.selection_set ++ acc) [] ∧
      (run_queries_checked fuel qs frags).length =
        qs.foldr (fun q acc => leafCountList q.selection_set + acc) 0 := by
  intro qs
  induction qs with
  | nil => intro h; exact ⟨rfl, rfl⟩
  | cons q rest ih =>
    intro h
    have hq := h q (List.mem_cons_self q rest)
    have hrest := ih (fun x hx => h x (List.mem_cons_of_mem q hx))
    have hroot : ∀ seg ∈ [querySegment q], seg ≠ "" := by
      intro seg hseg
      rw [List.mem_singleton.mp hseg]
      exact querySegment_ne_empty q
    have hhq : handle_query_checked fuel q frags =
        (leafQueriesList [querySegment q] q.selection_set, none) := by
      unfold handle_query_checked
      exact handle_checked_ok.2 q.selection_set fuel frags [querySegment q]
        hroot hq.1 hq.2
    constructor
    · simp [run_queries_checked, hhq, hrest.1]
    · simp [run_queries_checked, hhq, hrest.2, leafQueries_length.2]

/-- C4, counterexample: the fragment-free, spread-free document
`query \x7b a \x7b ... @skip \x7b b \x7d \x7d \x7d` has exactly one
terminal field, but its condition-less inline fragment pushes the empty
segment (`src/parser.rs` line 169), the leaf path serializes to the
ungrammatical adjacent braces `\x7b  \x7b`, re-serialization fails, the
error is discarded (`src/parser.rs` line 34), and the program emits
ZERO Standalone Queries — fewer than its one leaf field. -/
theorem flatten_counts_leaves_counterexample :
    noFragmentDefinitions inlineNoCondDoc = true ∧
    spreadFreeDoc inlineNoCondDoc = true ∧
    docLeafCount inlineNoCondDoc = 1 ∧
    parse_document_checked 0 inlineNoCondDoc = [] ∧
    (parse_document_checked 0 inlineNoCondDoc).length ≠
      docLeafCount inlineNoCondDoc := by
  have h4 : parse_document_checked 0 inlineNoCondDoc = [] := by
    simp +decide [parse_document_checked, run_queries_checked, docQueries,
      inlineNoCondDoc, fragmentTable, handle_query_checked,
      handle_selection_set_checked, handle_item_checked, handle_field_checked,
      handle_inline_fragment_checked, path_to_query_checked,
      SelectionList.isEmpty, querySegment, fieldSegment, inlineSegment,
      variable_definitions_to_str, directives_to_str, arguments_to_str]
  refine ⟨rfl, rfl, rfl, h4, ?_⟩
  rw [h4]
  decide

/-- C4, amended: for every document with no fragment definitions, no
fragment spreads, and no inline fragment lacking a type condition,
flattening produces exactly the depth-first, left-to-right leaf queries
of the document, one per terminal field: the output length equals the
number of fields with an empty nested selection set.  (Without the last
hypothesis the condition-less inline fragment's empty segment makes the
leaf's re-serialization fail and — the error being discarded — the
leaves below it produce no query, as the counterexample shows.) -/
theorem flatten_counts_leaves_amended :
    ∀ (fuel : Nat) (doc : Document),
      noFragmentDefinitions doc = true → spreadFreeDoc doc = true →
      inlineCondDoc doc = true →
      parse_document_checked fuel doc = dfsLeafQueries doc ∧
      (parse_document_checked fuel doc).length = docLeafCount doc := by
  intro fuel doc hnf hsf hic
  have hq : ∀ q ∈ docQueries doc, spreadFreeList q.selection_set = true ∧
      inlineCondList q.selection_set = true := by
    intro q hqmem
    obtain ⟨d, hd, hfd⟩ := List.mem_filterMap.mp hqmem
    have hdef : spreadFreeDef d = true := (List.all_eq_true.mp hsf) d hd
    have hdef2 : inlineCondDef d = true := (List.all_eq_true.mp hic) d hd
    cases d with
    | operation op =>
      cases op with
      | query q2 =>
        obtain rfl : q2 = q := by simpa using hfd
        exact ⟨hdef, hdef2⟩
      | mutation m => simp at hfd
      | subscription s => simp at hfd
      | selectionSet ss => simp at hfd
    | fragment f => simp at hfd
  exact run_queries_checked_ok fuel (fragmentTable doc.definitions)
    (docQueries doc) hq

/-- Witness for C4's amended claim on the spec's example document. -/
theorem flatten_counts_leaves_amended_witness :
    noFragmentDefinitions userNameAgeDoc = true ∧
    spreadFreeDoc userNameAgeDoc = true ∧
    inlineCondDoc userNameAgeDoc = true ∧
    parse_document_checked 0 userNameAgeDoc = dfsLeafQueries userNameAgeDoc ∧
    (parse_document_checked 0 userNameAgeDoc).length =
      docLeafCount userNameAgeDoc :=
  ⟨rfl, rfl, rfl,
    (flatten_counts_leaves_amended 0 userNameAgeDoc rfl rfl rfl).1,
    (flatten_counts_leaves_amended 0 userNameAgeDoc rfl rfl rfl).2⟩

/-- The structural delimiter characters of the query language's
serialized form: braces and parentheses. -/
def isDelimChar (c : Char) : Bool :=
  c = '\x7b' || c = '\x7d' || c = '(' || c = ')'

/-- A character that continues a word token: neither whitespace nor a
delimiter. -/
def isWordChar (c : Char) : Bool := !(c.isWhitespace || isDelimChar c)

/-- Split a character stream into tokens: maximal word-character runs
and single delimiter characters, with whitespace discarded; `acc` holds
the reversed current word run. -/
def tokenizeAux : List Char → List Char → List String
  | [], acc => if acc.isEmpty then [] else [String.mk acc.reverse]
  | c :: cs, acc =>
    if c.isWhitespace then
      if acc.isEmpty then tokenizeAux cs []
      else String.mk acc.reverse :: tokenizeAux cs []
    else if isDelimChar c then
      if acc.isEmpty then String.mk [c] :: tokenizeAux cs []
      else String.mk acc.reverse :: String.mk [c] :: tokenizeAux cs []
    else tokenizeAux cs (c :: acc)

/-- The token stream of a string. -/
def tokenize (s : String) : List String := tokenizeAux s.data []

/-- Remove `()` token pairs: the canonical reprint through the query
grammar omits an empty variable-definition list, which the source
always prints as `()` in the root segment; everything else the reprint
may change is whitespace, which tokenization already discards. -/
def dropEmptyParens : List String → List String
  | [] => []
  | "(" :: ")" :: rest => dropEmptyParens rest
  | t :: rest => t :: dropEmptyParens rest

/-- Equality modulo re-serialization formatting (spec §8), as equality
of canonical token streams. -/
def canonTokens (s : String) : List String := dropEmptyParens (tokenize s)

/-- A plain word: non-empty and made of word characters only. -/
def plainWord (s : String) : Bool := !s.isEmpty && s.data.all isWordChar

theorem tokenizeAux_word :
    ∀ (w rest acc : List Char), (∀ c ∈ w, isWordChar c = true) →
      tokenizeAux (w ++ rest) acc = tokenizeAux rest (w.reverse ++ acc) := by
  intro w
  induction w with
  | nil => intro rest acc h; simp
  | cons c cs ih =>
    intro rest acc h
    have hc := h c (List.mem_cons_self c cs)
    have hw : c.isWhitespace = false ∧ isDelimChar c = false := by
      simpa [isWordChar] using hc
    simp [tokenizeAux, hw.1, hw.2,
      ih rest (c :: acc) (fun x hx => h x (List.mem_cons_of_mem c hx))]

theorem dropEmptyParens_cons_of_ne (t : String) (rest : List String)
    (ht : t ≠ "(") :
    dropEmptyParens (t :: rest) = t :: dropEmptyParens rest := by
  cases rest with
  | nil => simp [dropEmptyParens, ht]
  | cons r rest' => simp [dropEmptyParens, ht]

theorem plainWord_words (f : String) (hf : plainWord f = true) :
    ∀ c ∈ f.data, isWordChar c = true := by
  have := (Bool.and_eq_true _ _).mp hf
  exact fun c hc => List.all_eq_true.mp this.2 c hc

theorem plainWord_data_ne_nil (f : String) (hf : plainWord f = true) :
    f.data ≠ [] := by
  intro h
  have hf0 : f = "" := String.ext (h.trans rfl)
  rw [hf0] at hf
  exact absurd hf (by decide)

theorem plainWord_ne_lparen (f : String) (hf : plainWord f = true) :
    f ≠ "(" := by
  intro h
  subst h
  exact absurd hf (by decide)

theorem tokenizeAux_word_tail (f : String) (hf : plainWord f = true) :
    tokenizeAux (f.data ++ [' ', '\x7d']) [] = [f, "\x7d"] := by
  rw [tokenizeAux_word f.data [' ', '\x7d'] [] (plainWord_words f hf)]
  have hne : ¬(f.data = []) := plainWord_data_ne_nil f hf
  simp [tokenizeAux, hne]

theorem tokenizeAux_word_delim (w : List Char)
    (hw : ∀ c ∈ w, isWordChar c = true) (hne : w ≠ [])
    (c : Char) (hc : isDelimChar c = true) (hcw : c.isWhitespace = false)
    (rest : List Char) :
    tokenizeAux (w ++ c :: rest) [] =
      String.mk w :: String.mk [c] :: tokenizeAux rest [] := by
  rw [tokenizeAux_word w (c :: rest) [] hw]
  have hne2 : ¬(w = []) := hne
  simp [tokenizeAux, hcw, hc, hne2]

theorem tokenizeAux_word_space (w : List Char)
    (hw : ∀ c ∈ w, isWordChar c = true) (hne : w ≠ [])
    (rest : List Char) :
    tokenizeAux (w ++ ' ' :: rest) [] = String.mk w :: tokenizeAux rest [] := by
  rw [tokenizeAux_word w (' ' :: rest) [] hw]
  have hne2 : ¬(w = []) := hne
  simp [tokenizeAux, hne2]

/-- The document consisting of a single (optionally named) query
operation whose selection set is the single leaf field `fname`. -/
def singleLeafDoc (qname : Option String) (fname : String) : Document :=
  ⟨[.operation (.query ⟨qname, [], [],
      .cons (.field none fname [] [] .nil) .nil⟩)]⟩

/-- The source text such a document is parsed from. -/
def simpleQueryText (qname : Option String) (fname : String) : String :=
  match qname with
  | some n => "query " ++ n ++ " \x7b " ++ fname ++ " \x7d"
  | none => "query \x7b " ++ fname ++ " \x7d"

theorem tokenize_flat_some (n f : String) (ss : SelectionList)
    (hn : plainWord n = true) (hf : plainWord f = true) :
    tokenize (path_to_query [querySegment ⟨some n, [], [], ss⟩,
      fieldSegment none f [] []]) =
      ["query", n, "(", ")", "\x7b", f, "\x7d"] := by
  simp only [tokenize, path_to_query, String.intercalate, String.intercalate.go,
    querySegment, fieldSegment, variable_definitions_to_str, directives_to_str,
    arguments_to_str, Option.getD, List.map, List.drop, List.isEmpty_nil,
    ite_true, ite_false, if_pos, reduceIte]
  simp only [String.data_append,
    show ("query " : String).data = ['q', 'u', 'e', 'r', 'y', ' '] from rfl,
    show ("" : String).data = [] from rfl,
    show ("(" : String).data = ['('] from rfl,
    show (") " : String).data = [')', ' '] from rfl,
    show (" \x7b " : String).data = [' ', '\x7b', ' '] from rfl,
    show (" " : String).data = [' '] from rfl,
    show ("\x7d" : String).data = ['\x7d'] from rfl,
    List.append_assoc, List.cons_append, List.nil_append, List.append_nil]
  simp +decide [tokenizeAux]
  rw [tokenizeAux_word_delim n.data (plainWord_words n hn)
    (plainWord_data_ne_nil n hn) '(' (by decide) (by decide)]
  simp +decide [tokenizeAux]
  rw [tokenizeAux_word_tail f hf]

theorem tokenize_flat_none (f : String) (ss : SelectionList)
    (hf : plainWord f = true) :
    tokenize (path_to_query [querySegment ⟨none, [], [], ss⟩,
      fieldSegment none f [] []]) =
      ["query", "(", ")", "\x7b", f, "\x7d"] := by
  simp only [tokenize, path_to_query, String.intercalate, String.intercalate.go,
    querySegment, fieldSegment, variable_definitions_to_str, directives_to_str,
    arguments_to_str, Option.getD, List.map, List.drop, List.isEmpty_nil,
    ite_true, ite_false, if_pos, reduceIte]
  simp only [String.data_append,
    show ("query " : String).data = ['q', 'u', 'e', 'r', 'y', ' '] from rfl,
    show ("" : String).data = [] from rfl,
    show ("(" : String).data = ['('] from rfl,
    show (") " : String).data = [')', ' '] from rfl,
    show (" \x7b " : String).data = [' ', '\x7b', ' '] from rfl,
    show (" " : String).data = [' '] from rfl,
    show ("\x7d" : String).data = ['\x7d'] from rfl,
    List.append_assoc, List.cons_append, List.nil_append, List.append_nil]
  simp +decide [tokenizeAux]
  rw [tokenizeAux_word_tail f hf]

theorem tokenize_orig_some (n f : String)
    (hn : plainWord n = true) (hf : plainWord f = true) :
    tokenize (simpleQueryText (some n) f) = ["query", n, "\x7b", f, "\x7d"] := by
  simp only [tokenize, simpleQueryText]
  simp only [String.data_append,
    show ("query " : String).data = ['q', 'u', 'e', 'r', 'y', ' '] from rfl,
    show (" \x7b " : String).data = [' ', '\x7b', ' '] from rfl,
    show (" \x7d" : String).data = [' ', '\x7d'] from rfl,
    List.append_assoc, List.cons_append, List.nil_append, List.append_nil]
  simp +decide [tokenizeAux]
  rw [tokenizeAux_word_space n.data (plainWord_words n hn)
    (plainWord_data_ne_nil n hn)]
  simp +decide [tokenizeAux]
  rw [tokenizeAux_word_tail f hf]

theorem tokenize_orig_none (f : String) (hf : plainWord f = true) :
    tokenize (simpleQueryText none f) = ["query", "\x7b", f, "\x7d"] := by
  simp only [tokenize, simpleQueryText]
  simp only [String.data_append,
    show ("query \x7b " : String).data =
      ['q', 'u', 'e', 'r', 'y', ' ', '\x7b', ' '] from rfl,
    show (" \x7d" : String).data = [' ', '\x7d'] from rfl,
    List.append_assoc, List.cons_append, List.nil_append, List.append_nil]
  simp +decide [tokenizeAux]
  rw [tokenizeAux_word_tail f hf]

theorem dropEmptyParens_flat_some (n f : String)
    (hn : plainWord n = true) (hf : plainWord f = true) :
    dropEmptyParens ["query", n, "(", ")", "\x7b", f, "\x7d"] =
      ["query", n, "\x7b", f, "\x7d"] := by
  rw [dropEmptyParens_cons_of_ne "query" _ (by decide),
    dropEmptyParens_cons_of_ne n _ (plainWord_ne_lparen n hn),
    show dropEmptyParens ["(", ")", "\x7b", f, "\x7d"] =
      dropEmptyParens ["\x7b", f, "\x7d"] from rfl,
    dropEmptyParens_cons_of_ne "\x7b" _ (by decide),
    dropEmptyParens_cons_of_ne f _ (plainWord_ne_lparen f hf)]
  rfl

theorem dropEmptyParens_plain (n f : String)
    (hn : plainWord n = true) (hf : plainWord f = true) :
    dropEmptyParens ["query", n, "\x7b", f, "\x7d"] =
      ["query", n, "\x7b", f, "\x7d"] := by
  rw [dropEmptyParens_cons_of_ne "query" _ (by decide),
    dropEmptyParens_cons_of_ne n _ (plainWord_ne_lparen n hn),
    dropEmptyParens_cons_of_ne "\x7b" _ (by decide),
    dropEmptyParens_cons_of_ne f _ (plainWord_ne_lparen f hf)]
  rfl

theorem dropEmptyParens_flat_none (f : String) (hf : plainWord f = true) :
    dropEmptyParens ["query", "(", ")", "\x7b", f, "\x7d"] =
      ["query", "\x7b", f, "\x7d"] := by
  rw [dropEmptyParens_cons_of_ne "query" _ (by decide),
    show dropEmptyParens ["(", ")", "\x7b", f, "\x7d"] =
      dropEmptyParens ["\x7b", f, "\x7d"] from rfl,
    dropEmptyParens_cons_of_ne "\x7b" _ (by decide),
    dropEmptyParens_cons_of_ne f _ (plainWord_ne_lparen f hf)]
  rfl

theorem dropEmptyParens_orig_none (f : String) (hf : plainWord f = true) :
    dropEmptyParens ["query", "\x7b", f, "\x7d"] =
      ["query", "\x7b", f, "\x7d"] := by
  rw [dropEmptyParens_cons_of_ne "query" _ (by decide),
    dropEmptyParens_cons_of_ne "\x7b" _ (by decide),
    dropEmptyParens_cons_of_ne f _ (plainWord_ne_lparen f hf)]
  rfl

theorem parse_document_singleLeaf (fuel : Nat) (qn : Option String) (f : String) :
    parse_document fuel (singleLeafDoc qn f) =
      [path_to_query [querySegment ⟨qn, [], [],
        .cons (.field none f [] [] .nil) .nil⟩, fieldSegment none f [] []]] := by
  simp [parse_document, run_queries, docQueries, singleLeafDoc, fragmentTable,
    handle_query, handle_selection_set, handle_item, handle_field,
    SelectionList.isEmpty]

/-- C5: flattening a document consisting of a single operation with a
single top-level leaf field yields exactly one Standalone Query equal,
modulo re-serialization formatting (canonical token streams, with the
empty `()` variable list the reprint omits removed), to the original
query; and flattening `query \x7b user \x7b name age \x7d \x7d` yields
exactly the two Standalone Queries `query \x7b user \x7b name \x7d
\x7d` and `query \x7b user \x7b age \x7d \x7d` up to the same
equivalence. -/
theorem single_leaf_roundtrip :
    (∀ (fuel : Nat) (qn : Option String) (f : String),
      plainWord f = true → (∀ n, qn = some n → plainWord n = true) →
      ∃ q : String, parse_document fuel (singleLeafDoc qn f) = [q] ∧
        canonTokens q = canonTokens (simpleQueryText qn f)) ∧
    (∀ fuel : Nat, ∃ q1 q2 : String,
      parse_document fuel userNameAgeDoc = [q1, q2] ∧
      canonTokens q1 = canonTokens "query \x7b user \x7b name \x7d \x7d" ∧
      canonTokens q2 = canonTokens "query \x7b user \x7b age \x7d \x7d") := by
  constructor
  · intro fuel qn f hf hqn
    refine ⟨path_to_query [querySegment ⟨qn, [], [],
      .cons (.field none f [] [] .nil) .nil⟩, fieldSegment none f [] []],
      parse_document_singleLeaf fuel qn f, ?_⟩
    cases qn with
    | none =>
      rw [show canonTokens (path_to_query [querySegment ⟨none, [], [],
            .cons (.field none f [] [] .nil) .nil⟩, fieldSegment none f [] []]) =
          dropEmptyParens (tokenize (path_to_query [querySegment ⟨none, [], [],
            .cons (.field none f [] [] .nil) .nil⟩, fieldSegment none f [] []]))
          from rfl,
        tokenize_flat_none f _ hf, dropEmptyParens_flat_none f hf,
        show canonTokens (simpleQueryText none f) =
          dropEmptyParens (tokenize (simpleQueryText none f)) from rfl,
        tokenize_orig_none f hf, dropEmptyParens_orig_none f hf]
    | some n =>
      have hn : plainWord n = true := hqn n rfl
      rw [show canonTokens (path_to_query [querySegment ⟨some n, [], [],
            .cons (.field none f [] [] .nil) .nil⟩, fieldSegment none f [] []]) =
          dropEmptyParens (tokenize (path_to_query [querySegment ⟨some n, [], [],
            .cons (.field none f [] [] .nil) .nil⟩, fieldSegment none f [] []]))
          from rfl,
        tokenize_flat_some n f _ hn hf, dropEmptyParens_flat_some n f hn hf,
        show canonTokens (simpleQueryText (some n) f) =
          dropEmptyParens (tokenize (simpleQueryText (some n) f)) from rfl,
        tokenize_orig_some n f hn hf, dropEmptyParens_plain n f hn hf]
  · intro fuel
    refine ⟨"query ()  \x7b user  \x7b name \x7d \x7d",
      "query ()  \x7b user  \x7b age \x7d \x7d", ?_, by decide, by decide⟩
    simp [parse_document, run_queries, docQueries, userNameAgeDoc, fragmentTable,
      handle_query, handle_selection_set, handle_item, handle_field,
      SelectionList.isEmpty, querySegment, fieldSegment,
      variable_definitions_to_str, directives_to_str, arguments_to_str]
    constructor <;> rfl

/-- Witness for C5's general conjunct at the named query `query Q \x7b
user \x7d`. -/
theorem single_leaf_roundtrip_witness :
    plainWord "user" = true ∧
    (∃ q : String, parse_document 0 (singleLeafDoc (some "Q") "user") = [q] ∧
      canonTokens q = canonTokens (simpleQueryText (some "Q") "user")) :=
  ⟨by decide, single_leaf_roundtrip.1 0 (some "Q") "user" (by decide)
    (fun n h => by cases h; decide)⟩

end GFT
